import Mathlib

/-!
Verification of the MVAI media pipeline against its specification.

The definitions below are a shallow embedding of the Python sources:
  * `load_beat_data`     — `media_processor.py`, `MediaProcessor.load_beat_data` (lines 904-917)
  * `beatLoop`/`beatPlan` — the beat-synced branch of
    `MediaProcessor.create_mv_from_clips` (lines 1125-1170)
  * `seqAux`/`seqPlan`   — the sequential-fill branch (lines 1172-1195)
  * `adjustDuration`     — the duration-matching step (lines 1265-1307)
  * `create_mv`          — the control/error flow of `create_mv_from_clips`
    (lines 1081-1361), over an environment of external-tool outcomes
  * `finalizeTransfer`   — the move/copy step of `MediaProcessor.finalize_assets`
    (lines 674-697)
  * `on_created`         — `app.py`, `MediaFileHandler.on_created` (lines 176-258)

Machine floats are modelled by exact rationals; external tools (ffmpeg probe,
encode, concat, mux) are modelled by environments recording their outcomes.
-/

/-- A planned segment: the dict
`{'clip': …, 'start_time': …, 'duration': …, 'output_start': …}`
built by `create_mv_from_clips`.  `clip` is the index of the source clip in
the `video_clips` pool. -/
structure ClipSegment where
  clip : ℕ
  start_time : ℚ
  duration : ℚ
  output_start : ℚ
deriving DecidableEq

/-- Result of `load_beat_data`: the dict `{'bpm', 'beat_times', 'total_beats'}`. -/
structure BeatData where
  bpm : ℚ
  beat_times : List ℚ
  total_beats : ℕ
deriving DecidableEq

/-- `MediaProcessor.load_beat_data` (media_processor.py 904-917), given the
`beat_time_seconds` column read from the persisted CSV.  BPM is recomputed
from the first two stored beat times; 120 is the default when fewer than two
beats exist or the first interval is not positive. -/
def load_beat_data (beat_times : List ℚ) : BeatData :=
  let bpm :=
    if 2 ≤ beat_times.length then
      let beat_interval := beat_times.getD 1 0 - beat_times.getD 0 0
      if 0 < beat_interval then 60 / beat_interval else 120
    else 120
  { bpm := bpm, beat_times := beat_times, total_beats := beat_times.length }

/-- `beats_per_clip = 4` (media_processor.py line 1132). -/
def beats_per_clip : ℕ := 4

/-- The window start indices `range(0, n, beats_per_clip)` of the beat-synced
loop (media_processor.py line 1134). -/
def windowStarts (n : ℕ) : List ℕ :=
  List.range' 0 ((n + beats_per_clip - 1) / beats_per_clip) beats_per_clip

/-- The body of the beat-synced planning loop (media_processor.py 1134-1168),
instrumented with the window ordinal: processes the remaining window start
indices, carrying the current window ordinal `ord` and `clip_index` `ci`, and
returns the emitted `(window ordinal, segment)` pairs.  A window whose
`segment_duration ≤ 0` is skipped by `continue` *before* `clip_index` is
advanced; a window whose assigned clip has `clip_duration ≤ 0` is skipped
*after* advancing `clip_index`. -/
def beatLoop (beats durs : List ℚ) (audio : ℚ) :
    List ℕ → ℕ → ℕ → List (ℕ × ClipSegment)
  | [], _, _ => []
  | i :: rest, ord, ci =>
    let segment_start := beats.getD i 0
    let segment_end :=
      if i + beats_per_clip < beats.length then beats.getD (i + beats_per_clip) 0
      else audio
    let segment_duration := segment_end - segment_start
    if segment_duration ≤ 0 then
      beatLoop beats durs audio rest (ord + 1) ci
    else
      let clip_duration := durs.getD (ci % durs.length) 0
      if clip_duration ≤ 0 then
        beatLoop beats durs audio rest (ord + 1) (ci + 1)
      else
        (ord, { clip := ci % durs.length, start_time := 0,
                duration := min clip_duration segment_duration,
                output_start := segment_start }) ::
          beatLoop beats durs audio rest (ord + 1) (ci + 1)

/-- The beat-synced plan with window ordinals attached. -/
def beatPlanW (beat_times clip_durations : List ℚ) (audio_duration : ℚ) :
    List (ℕ × ClipSegment) :=
  beatLoop beat_times clip_durations audio_duration
    (windowStarts beat_times.length) 0 0

/-- The beat-synced plan of `create_mv_from_clips` (media_processor.py
1125-1170): the ordered `clip_segments` list. -/
def beatPlan (beat_times clip_durations : List ℚ) (audio_duration : ℚ) :
    List ClipSegment :=
  (beatPlanW beat_times clip_durations audio_duration).map Prod.snd

/-- `tilesFrom segs t audio` states that the placement intervals
`[output_start, output_start + duration)` of `segs`, in order, exactly tile
`[t, audio)`: each segment starts where the previous one ended, with no gap
and no overlap, and the last one ends at `audio`. -/
def tilesFrom : List ClipSegment → ℚ → ℚ → Prop
  | [], t, audio => t = audio
  | s :: rest, t, audio => s.output_start = t ∧ tilesFrom rest (t + s.duration) audio

/-- The sequential-fill planning loop (media_processor.py 1178-1193), with a
fuel bound: `none` means the `while current_time < audio_duration` loop did
not terminate within `fuel` iterations.  Each iteration picks
`clips[clip_index % len(clips)]`, uses
`min(clip_duration, audio_duration - current_time)`, and advances
`current_time` and `clip_index`. -/
def seqAux (durs : List ℚ) (audio : ℚ) : ℕ → ℚ → ℕ → Option (List ClipSegment)
  | 0, _, _ => none
  | fuel + 1, current_time, ci =>
    if current_time < audio then
      let clip_duration := durs.getD (ci % durs.length) 0
      let use_duration := min clip_duration (audio - current_time)
      (seqAux durs audio fuel (current_time + use_duration) (ci + 1)).map
        (fun rest =>
          { clip := ci % durs.length, start_time := 0,
            duration := use_duration, output_start := current_time } :: rest)
    else some []

/-- The sequential-fill plan of `create_mv_from_clips` (media_processor.py
1172-1195), starting from `current_time = 0`, `clip_index = 0`. -/
def seqPlan (fuel : ℕ) (clip_durations : List ℚ) (audio_duration : ℚ) :
    Option (List ClipSegment) :=
  seqAux clip_durations audio_duration fuel 0 0

/-- Number of extra copies of the final segment appended to the concat list
when the combined video is shorter than the audio:
`int((audio_duration - combined_duration) / 2) + 1`
(media_processor.py line 1276).  `int` truncates toward zero; the argument is
positive in this branch, so it is the floor. -/
def padRepeats (audio_duration combined_duration : ℚ) : ℕ :=
  (⌊(audio_duration - combined_duration) / 2⌋).toNat + 1

/-- The duration-matching step of `create_mv_from_clips`
(media_processor.py 1265-1307): given the probed `combined_duration`, the
audio duration and the duration of the final segment file, the duration of
the video track it delivers to the mux step.
* shorter: append `padRepeats` copies of the final segment and re-encode with
  `t=audio_duration`, so the result lasts `min (combined + n·final) audio`;
* longer: stream-copy the first `audio_duration` seconds;
* equal: left unchanged. -/
def adjustDuration (combined_duration audio_duration final_segment_duration : ℚ) : ℚ :=
  if combined_duration < audio_duration then
    min (combined_duration +
          (padRepeats audio_duration combined_duration : ℚ) * final_segment_duration)
      audio_duration
  else if audio_duration < combined_duration then
    audio_duration
  else
    combined_duration

/-- Outcome of extracting one segment with the external tool
(media_processor.py 1204-1221): the invocation raises, produces the segment
file, or succeeds without producing a file. -/
inductive SegRun
  | crash
  | made
  | missing
deriving DecidableEq

/-- Environment of external outcomes for one `create_mv_from_clips` call:
everything the function observes from the filesystem and the external tool. -/
structure MVEnv where
  /-- `audio_path.exists()` (line 1085). -/
  audio_exists : Bool
  /-- probed audio duration; `none` models a probe failure (lines 1090-1094). -/
  audio_probe : Option ℚ
  /-- the `sync_to_beat` argument. -/
  sync_to_beat : Bool
  /-- `load_beat_data` result: the persisted beat times, or `none` (line 1107). -/
  beat_data : Option (List ℚ)
  /-- per-clip probe results; `none` models a failed probe, which appends
  duration 0 (lines 1115-1122). -/
  clip_probes : List (Option ℚ)
  /-- outcome of extracting segment `i` (lines 1204-1221). -/
  seg_run : ℕ → SegRun
  /-- whether the concat invocation succeeds (lines 1240-1263). -/
  concat_ok : Bool
  /-- whether the mux invocation succeeds (lines 1309-1326). -/
  mux_ok : Bool
  /-- `output_path.exists() and output_path.stat().st_size > 0` at the end
  (line 1337). -/
  output_ok : Bool

/-- The assembly stage of `create_mv_from_clips` (media_processor.py
1197-1361), after the plan has been built: extract every segment (an
`ffmpeg.Error` reaches the handler at line 1348 and returns `False`),
concatenate, duration-match (failures there are swallowed by the bare
`except: pass` at line 1306 and do not affect the result), mux, and finally
report whether the output file exists with non-zero size. -/
def assembleStage (env : MVEnv) (plan : List ClipSegment) : Bool :=
  if (List.range plan.length).any (fun i => env.seg_run i = SegRun.crash) then false
  else
    let segment_files := (List.range plan.length).filter
      (fun i => env.seg_run i = SegRun.made)
    if segment_files.isEmpty then false
    else if env.concat_ok = false then false
    else if env.mux_ok = false then false
    else env.output_ok

/-- Control and error flow of `MediaProcessor.create_mv_from_clips`
(media_processor.py 1081-1361) over an environment of external outcomes.
`some b` means the call returns the boolean `b`; `none` means the sequential
planning loop did not finish within `fuel` iterations (the call has not
returned).  Every tool failure is caught by an `except` handler and converted
into a `some false` return. -/
def create_mv (fuel : ℕ) (env : MVEnv) : Option Bool :=
  if env.audio_exists = false then some false
  else
    let audio_duration := env.audio_probe.getD 0
    if audio_duration ≤ 0 then some false
    else
      let beat := if env.sync_to_beat then env.beat_data else none
      let clip_durations := env.clip_probes.map (fun p => p.getD 0)
      match beat with
      | some beat_times =>
        some (assembleStage env (beatPlan beat_times clip_durations audio_duration))
      | none =>
        if clip_durations.length = 0 then
          -- `video_clips[clip_index % 0]` raises ZeroDivisionError on the
          -- first loop iteration; the outermost handler converts it to False.
          some false
        else (seqPlan fuel clip_durations audio_duration).map (assembleStage env)

/-- The archive folder name `"使用済み素材"` used by `finalize_assets`
(media_processor.py line 676). -/
def usedMarker : String := "使用済み素材"

/-- A filesystem modelled as a partial map from paths (component lists) to
file contents. -/
def FileSys : Type := List String → Option ℕ

/-- `shutil.copy2(src, dst)`: the destination now holds the source's content,
the source is untouched. -/
def fsCopy (fs : FileSys) (src dst : List String) : FileSys :=
  fun p => if p = dst then fs src else fs p

/-- `shutil.move(src, dst)`: the destination now holds the source's content
and the source is removed. -/
def fsMove (fs : FileSys) (src dst : List String) : FileSys :=
  fun p => if p = dst then fs src else if p = src then none else fs p

/-- The move/copy step of `MediaProcessor.finalize_assets`
(media_processor.py 674-697): if the video's path contains the used-material
archive folder, it is copied into the set folder (never moved); otherwise it
is first moved into the archive and then copied from there into the set
folder.  `dest_path` and `used_path` are the collision-free destination paths
computed by the preceding suffix-probing loops. -/
def finalizeTransfer (fs : FileSys) (file_path dest_path used_path : List String) :
    FileSys :=
  if usedMarker ∈ file_path then
    fsCopy fs file_path dest_path
  else
    fsCopy (fsMove fs file_path used_path) used_path dest_path

/-- The audio allow-list of `MediaFileHandler.on_created` (app.py line 195). -/
def valid_audio_extensions : List String :=
  [".mp3", ".wav", ".flac", ".m4a", ".aac", ".ogg", ".wma"]

/-- The video allow-list of `MediaFileHandler.on_created` (app.py line 196). -/
def valid_video_extensions : List String :=
  [".mp4", ".avi", ".mov", ".mkv", ".wmv", ".flv", ".webm", ".m4v"]

/-- The audio intake folder `01_曲_Input` (app.py line 141). -/
def audioInputFolder : String := "01_曲_Input"

/-- The raw-video intake folder `02_元動画_Sora` (app.py line 142). -/
def rawVideoFolder : String := "02_元動画_Sora"

/-- Observable actions of the watcher handler: a log entry, or spawning the
worker thread for the matching stage handler.  The handler itself performs no
filesystem operation. -/
inductive WatchAction
  | logEntry (level message : String)
  | spawnAudio (path : String)
  | spawnVideo (path : String)
  | spawnQuality (path : String)
  | spawnLipsync (path : String)
  | spawnFinalize (path : String)
deriving DecidableEq

/-- A file-create event as seen by `on_created`: directory flag, parent
folder name, file name, lowercased extension, and the full path string. -/
structure WatchEvent where
  is_directory : Bool
  parent : String
  name : String
  ext : String
  path : String
deriving DecidableEq

/-- `MediaFileHandler.on_created` (app.py 176-258): given the seen-set
`processed` and whether the file still exists after the settle wait, returns
the new seen-set and the actions performed.  An unsupported extension in an
intake folder logs one ERROR entry and performs no transition. -/
def on_created (processed : List String) (e : WatchEvent) (still_exists : Bool) :
    List String × List WatchAction :=
  if e.is_directory then (processed, [])
  else if e.path ∈ processed then (processed, [])
  else if still_exists = false then (processed, [])
  else if e.parent = audioInputFolder ∧ e.ext ∉ valid_audio_extensions then
    (processed, [.logEntry "ERROR"
      ("対応していない音声ファイル形式です: " ++ e.name ++ " (" ++ e.ext ++ ")")])
  else if e.parent = rawVideoFolder ∧ e.ext ∉ valid_video_extensions then
    (processed, [.logEntry "ERROR"
      ("対応していない動画ファイル形式です: " ++ e.name ++ " (" ++ e.ext ++ ")")])
  else
    (e.path :: processed,
      if e.parent = audioInputFolder then [.spawnAudio e.path]
      else if e.parent = rawVideoFolder then [.spawnVideo e.path]
      else if e.parent = "04_AI動画_生成中" then [.spawnQuality e.path]
      else if e.parent = "05_動画_高品質化" then [.spawnLipsync e.path]
      else if e.parent = "06_動画_口パク" then [.spawnFinalize e.path]
      else [])

/-- One iteration of the sequential-fill loop body acting on the state
`(current_time, clip_index)` (the loop guard `current_time < audio` is
handled separately). -/
def seqStep (durs : List ℚ) (audio : ℚ) (st : ℚ × ℕ) : ℚ × ℕ :=
  (st.1 + min (durs.getD (st.2 % durs.length) 0) (audio - st.1), st.2 + 1)

/-- A `.txt` file dropped into the audio intake folder. -/
def sampleTxtEvent : WatchEvent :=
  { is_directory := false, parent := "01_曲_Input", name := "a.txt",
    ext := ".txt", path := "01_曲_Input/a.txt" }

/-- A video already sitting in the used-material archive of the lip-sync
stage folder. -/
def archiveSamplePath : List String := ["06_動画_口パク", "使用済み素材", "a.mp4"]

/-- Its destination inside the per-asset set folder. -/
def setSamplePath : List String := ["99_MV_編集素材", "a", "a.mp4"]

/-- The archive path the non-archive branch would have used. -/
def usedSamplePath : List String := ["06_動画_口パク", "使用済み素材", "a(1).mp4"]

/-- A filesystem holding just the archived video. -/
def sampleFs : FileSys := fun p => if p = archiveSamplePath then some 7 else none

/-- A sequential-mode environment in which every clip probe fails, so every
planned duration is the appended 0: the planning loop inside the assembly
operation never finishes, and the call never returns a boolean at all. -/
def divergingEnv : MVEnv :=
  { audio_exists := true, audio_probe := some 1, sync_to_beat := false,
    beat_data := none, clip_probes := [none], seg_run := fun _ => SegRun.made,
    concat_ok := true, mux_ok := true, output_ok := true }

/-- A fully successful environment: one clip of duration 10, audio of
duration 10, sequential mode, all tool invocations succeed and the output
file is written. -/
def successEnv : MVEnv :=
  { audio_exists := true, audio_probe := some 10, sync_to_beat := false,
    beat_data := none, clip_probes := [some 10], seg_run := fun _ => SegRun.made,
    concat_ok := true, mux_ok := true, output_ok := true }

/-- C5: for a beat grid with 9 beats at 0.0, 0.5, …, 4.0 s, two clips of
duration 3.0 s each and audio duration 4.0 s (the track end implied by "no
final partial-window segment"), beat-synced planning with
`beats_per_clip = 4` produces exactly two segments: window ordinal 0 gets
clip 0 on `[0, 2)` and window ordinal 1 gets clip 1 on `[2, 4)` (each
trimmed to `min 3 2 = 2` seconds); the leftover ninth beat starts a window
of zero duration which is skipped, producing no final segment. -/
theorem scenario_b_two_segments :
    beatPlanW [0, 1/2, 1, 3/2, 2, 5/2, 3, 7/2, 4] [3, 3] 4 =
      [(0, ⟨0, 0, 2, 0⟩), (1, ⟨1, 0, 2, 2⟩)] := by
  norm_num [beatPlanW, beatLoop, windowStarts, beats_per_clip]

/-- C7: for audio duration 65.0 s and clip durations [10, 20, 5],
sequential-fill planning terminates (fuel 6 suffices) with exactly five
segments of durations [10, 20, 5, 10, 20] placed back to back at
0, 10, 30, 35, 45; the durations sum to exactly 65, so the final segment is
truncated to the remaining time and the plan never overruns the audio. -/
theorem scenario_a_five_segments :
    seqPlan 6 [10, 20, 5] 65 =
      some [⟨0, 0, 10, 0⟩, ⟨1, 0, 20, 10⟩, ⟨2, 0, 5, 30⟩, ⟨0, 0, 10, 35⟩,
        ⟨1, 0, 20, 45⟩] ∧
    [(10 : ℚ), 20, 5, 10, 20].sum = 65 := by
  constructor
  · norm_num [seqPlan, seqAux]
  · norm_num

/-- C3, counterexample: on the degenerate persisted table `[1, 1]` (two
beats with zero spacing) the reloaded BPM is the 120 default, not
`60 / (beat_times[1] - beat_times[0])` — that formula divides by zero (in
the rational model `60 / 0 = 0`).  So the claim does not hold for *every*
table with at least two beats. -/
theorem load_beat_data_bpm_formula_fails :
    (load_beat_data [1, 1]).bpm ≠ 60 / ((1 : ℚ) - 1) := by
  norm_num [load_beat_data]

/-- C3, amended: reloaded BPM is recomputed from the first two persisted
beat times as `60 / (t1 - t0)` whenever at least two beats exist *and the
first interval is positive* (no stored BPM value is consulted — the loader
reads only the `beat_time_seconds` column); it is the 120 default when fewer
than two beats exist or the first interval is not positive. -/
theorem load_beat_data_bpm_amended (beat_times : List ℚ) :
    (2 ≤ beat_times.length → 0 < beat_times.getD 1 0 - beat_times.getD 0 0 →
      (load_beat_data beat_times).bpm =
        60 / (beat_times.getD 1 0 - beat_times.getD 0 0)) ∧
    (2 ≤ beat_times.length → beat_times.getD 1 0 - beat_times.getD 0 0 ≤ 0 →
      (load_beat_data beat_times).bpm = 120) ∧
    (beat_times.length < 2 → (load_beat_data beat_times).bpm = 120) := by
  unfold load_beat_data
  refine ⟨fun h1 h2 => ?_, fun h1 h2 => ?_, fun h1 => ?_⟩
  · simp only [if_pos h1, if_pos h2]
  · simp only [if_pos h1, if_neg (not_lt.mpr h2)]
  · simp only [if_neg (not_le.mpr h1)]

/-- C3, witness for the amended theorem at the table `[0, 1/2]`. -/
theorem load_beat_data_bpm_amended_witness :
    (load_beat_data [0, 1/2]).bpm =
      60 / (([0, (1 : ℚ)/2].getD 1 0) - ([0, (1 : ℚ)/2].getD 0 0)) :=
  (load_beat_data_bpm_amended [0, 1/2]).1 (by norm_num) (by norm_num)

/-- C2: at the failing input `combined_duration = 10`, `audio_duration = 20`
with a final segment file of duration `1/2` second, the pad-by-repeating
step appends `int((20 - 10) / 2) + 1 = 6` copies of the final segment,
reaching only 13 seconds, and the `t=audio_duration` hard-truncate cannot
extend it; the delivered video track lasts 13 s, not the required 20 s. -/
theorem pad_heuristic_undershoots :
    adjustDuration 10 20 (1/2) = 13 ∧ (13 : ℚ) ≠ 20 := by
  constructor
  · norm_num [adjustDuration, padRepeats, Int.toNat]
  · norm_num

/-- C10: a file event in the audio intake folder whose extension is not in
the audio allow-list produces exactly one ERROR log entry and nothing else:
the seen-set is unchanged, no worker is spawned (so no analysis is invoked
and no stage transition happens), and the handler performs no filesystem
action, leaving the file at its original path. -/
theorem watcher_rejects_unsupported_audio_ext (processed : List String)
    (e : WatchEvent) (hdir : e.is_directory = false) (hseen : e.path ∉ processed)
    (hparent : e.parent = audioInputFolder)
    (hext : e.ext ∉ valid_audio_extensions) :
    on_created processed e true =
      (processed, [.logEntry "ERROR"
        ("対応していない音声ファイル形式です: " ++ e.name ++ " (" ++ e.ext ++ ")")]) := by
  unfold on_created
  rw [if_neg (by simp [hdir]), if_neg hseen, if_neg (by simp),
    if_pos ⟨hparent, hext⟩]


/-- C10, witness: the rejection theorem applied to a concrete `.txt` event
with an empty seen-set. -/
theorem watcher_rejects_unsupported_audio_ext_witness :
    on_created [] sampleTxtEvent true =
      ([], [.logEntry "ERROR"
        ("対応していない音声ファイル形式です: " ++ sampleTxtEvent.name ++
          " (" ++ sampleTxtEvent.ext ++ ")")]) :=
  watcher_rejects_unsupported_audio_ext [] sampleTxtEvent rfl (by simp) rfl
    (by decide)

/-- C9: if the finalized video's path lies inside a `使用済み素材` (used
material) archive folder, the finalize stage copies it into the set folder
and never moves it — afterwards the archived original is still present with
its content unchanged, and the whole operation is exactly the copy.
Otherwise (second conjunct) the file *is* moved: it no longer exists at its
original path afterwards. -/
theorem finalize_preserves_archive (fs : FileSys)
    (file_path dest_path used_path : List String) :
    (usedMarker ∈ file_path → dest_path ≠ file_path →
      finalizeTransfer fs file_path dest_path used_path file_path = fs file_path ∧
      finalizeTransfer fs file_path dest_path used_path =
        fsCopy fs file_path dest_path) ∧
    (usedMarker ∉ file_path → dest_path ≠ file_path → used_path ≠ file_path →
      finalizeTransfer fs file_path dest_path used_path file_path = none) := by
  constructor
  · intro harch hne
    constructor
    · unfold finalizeTransfer fsCopy
      rw [if_pos harch, if_neg (fun h => hne h.symm)]
    · unfold finalizeTransfer
      rw [if_pos harch]
  · intro harch hdne hune
    unfold finalizeTransfer fsCopy fsMove
    rw [if_neg harch, if_neg (fun h => hdne h.symm), if_neg (fun h => hune h.symm),
      if_pos rfl]


/-- C9, witness: finalizing the archived video leaves the archive copy
intact. -/
theorem finalize_preserves_archive_witness :
    finalizeTransfer sampleFs archiveSamplePath setSamplePath usedSamplePath
      archiveSamplePath = sampleFs archiveSamplePath :=
  ((finalize_preserves_archive sampleFs archiveSamplePath setSamplePath
    usedSamplePath).1 (by decide) (by decide)).1

/-! ### Helper lemmas about beat grids and window starts -/

lemma getD_lt_getD (beats : List ℚ) (hsorted : List.Sorted (· < ·) beats)
    {i j : ℕ} (hij : i < j) (hj : j < beats.length) :
    beats.getD i 0 < beats.getD j 0 := by
  rw [List.getD_eq_getElem _ _ (hij.trans hj), List.getD_eq_getElem _ _ hj]
  have := List.Sorted.get_strictMono hsorted
    (a := ⟨i, hij.trans hj⟩) (b := ⟨j, hj⟩) hij
  simpa [List.get_eq_getElem] using this

lemma getD_mem_of_lt (beats : List ℚ) {i : ℕ} (h : i < beats.length) :
    beats.getD i 0 ∈ beats := by
  rw [List.getD_eq_getElem _ _ h]
  exact List.getElem_mem h

lemma getD_nonneg_of_head_zero (beats : List ℚ)
    (hsorted : List.Sorted (· < ·) beats) (h0 : beats.getD 0 0 = 0)
    {i : ℕ} (h : i < beats.length) : 0 ≤ beats.getD i 0 := by
  rcases Nat.eq_zero_or_pos i with rfl | hi
  · exact le_of_eq h0.symm
  · have := getD_lt_getD beats hsorted hi h
    rw [h0] at this
    exact le_of_lt this

lemma windowStarts_eq (n : ℕ) :
    windowStarts n = List.range' 0 ((n + 3) / 4) 4 := by
  simp [windowStarts, beats_per_clip]

lemma mem_windowStarts_lt {n x : ℕ} (hx : x ∈ windowStarts n) : x < n := by
  rw [windowStarts_eq, List.mem_range'] at hx
  obtain ⟨j, hj, rfl⟩ := hx
  omega

/-! ### C4: round-robin assignment in the beat-synced planner -/

lemma beatLoop_clip_eq_ord_mod (beats durs : List ℚ) (audio : ℚ)
    (hsorted : List.Sorted (· < ·) beats) (hlt : ∀ b ∈ beats, b < audio) :
    ∀ (l : List ℕ) (ord : ℕ), (∀ x ∈ l, x < beats.length) →
      ∀ p ∈ beatLoop beats durs audio l ord ord, p.2.clip = p.1 % durs.length := by
  intro l
  induction l with
  | nil => intro ord _ p hp; simp [beatLoop] at hp
  | cons i rest ih =>
    intro ord hl p hp
    have hi : i < beats.length := hl i (List.mem_cons_self i rest)
    have hrest : ∀ x ∈ rest, x < beats.length :=
      fun x hx => hl x (List.mem_cons_of_mem i hx)
    simp only [beatLoop] at hp
    have hpos : 0 < (if i + beats_per_clip < beats.length
        then beats.getD (i + beats_per_clip) 0 else audio) - beats.getD i 0 := by
      split
      · exact sub_pos.mpr
          (getD_lt_getD beats hsorted (by unfold beats_per_clip; omega) (by assumption))
      · exact sub_pos.mpr (hlt _ (getD_mem_of_lt beats hi))
    rw [if_neg (not_le.mpr hpos)] at hp
    by_cases hc : durs.getD (ord % durs.length) 0 ≤ 0
    · rw [if_pos hc] at hp
      exact ih (ord + 1) hrest p hp
    · rw [if_neg hc] at hp
      rcases List.mem_cons.mp hp with h | h
      · subst h; rfl
      · exact ih (ord + 1) hrest p h

/-- C4, counterexample: with beat times `[0,0,0,0,0,1,2,3,4]`, two clips of
duration 3 and audio duration 4, window ordinal 0 is degenerate
(`segment_duration = 0`) and is skipped *without* advancing `clip_index`, so
window ordinal 1 receives clip 0 instead of `clips[1 mod 2] = 1`: the clip
assigned to a window is not `clips[window_ordinal mod len(clips)]`. -/
theorem beat_round_robin_ordinal_mismatch :
    ¬ ∀ p ∈ beatPlanW [0, 0, 0, 0, 0, 1, 2, 3, 4] [3, 3] 4,
        p.2.clip = p.1 % [(3 : ℚ), 3].length := by
  intro h
  have hplan : beatPlanW [0, 0, 0, 0, 0, 1, 2, 3, 4] [3, 3] 4 =
      [(1, ⟨0, 0, 3, 0⟩)] := by
    norm_num [beatPlanW, beatLoop, windowStarts, beats_per_clip]
  have := h (1, ⟨0, 0, 3, 0⟩) (by rw [hplan]; exact List.mem_singleton_self _)
  simp at this

/-- C4, amended: `clip_index` advances on every non-degenerate window —
including windows skipped because the assigned clip has duration ≤ 0 — but a
window with degenerate (≤ 0) segment duration is skipped *before* the index
advances.  Hence for every beat grid with no degenerate window (strictly
increasing beat times, all below the audio duration) the clip assigned to
each window equals `clips[window_ordinal mod len(clips)]`. -/
theorem beat_round_robin_of_no_degenerate (beats durs : List ℚ) (audio : ℚ)
    (hsorted : List.Sorted (· < ·) beats) (hlt : ∀ b ∈ beats, b < audio) :
    ∀ p ∈ beatPlanW beats durs audio, p.2.clip = p.1 % durs.length :=
  beatLoop_clip_eq_ord_mod beats durs audio hsorted hlt
    (windowStarts beats.length) 0 (fun _ hx => mem_windowStarts_lt hx)

/-- C4, witness: a grid of nine strictly increasing beats below the audio
duration, with clip 0 of duration 0 (skipped, index still advances): the
emitted segment of window ordinal 1 indeed gets clip `1 mod 2 = 1`. -/
theorem beat_round_robin_of_no_degenerate_witness :
    (⟨1, 0, 2, 2⟩ : ClipSegment).clip = 1 % 2 :=
  beat_round_robin_of_no_degenerate [0, 1/2, 1, 3/2, 2, 5/2, 3, 7/2, 4] [0, 3] 5
    (by norm_num [List.sorted_cons]) (by norm_num) (1, ⟨1, 0, 2, 2⟩)
    (by norm_num [beatPlanW, beatLoop, windowStarts, beats_per_clip])

/-! ### C1: tiling of the beat-synced plan -/

lemma beatLoop_tiles (beats durs : List ℚ) (audio : ℚ)
    (hsorted : List.Sorted (· < ·) beats) (h0 : beats.getD 0 0 = 0)
    (hlt : ∀ b ∈ beats, b < audio) (hdur : ∀ d ∈ durs, audio ≤ d)
    (hdne : durs ≠ []) :
    ∀ (cnt s ord ci : ℕ), 0 < cnt → s + 4 * (cnt - 1) < beats.length →
      beats.length ≤ s + 4 * cnt →
      tilesFrom
        ((beatLoop beats durs audio (List.range' s cnt 4) ord ci).map Prod.snd)
        (beats.getD s 0) audio := by
  have hLpos : 0 < durs.length := List.length_pos.mpr hdne
  intro cnt
  induction cnt with
  | zero => intro s ord ci hc; exact absurd hc (lt_irrefl 0)
  | succ k ih =>
    intro s ord ci _ hlast hcover
    have hs : s < beats.length := by omega
    have haud : 0 < audio := by
      have := hlt _ (getD_mem_of_lt beats (i := 0) (by omega))
      rw [h0] at this
      exact this
    have hclip : audio ≤ durs.getD (ci % durs.length) 0 :=
      hdur _ (getD_mem_of_lt durs (Nat.mod_lt ci hLpos))
    have hsnn : 0 ≤ beats.getD s 0 := getD_nonneg_of_head_zero beats hsorted h0 hs
    rw [List.range'_succ]
    cases k with
    | zero =>
      simp only [List.range'_zero, beatLoop, beats_per_clip]
      have hnot : ¬ (s + 4 < beats.length) := by omega
      rw [if_neg hnot]
      have hwpos : 0 < audio - beats.getD s 0 :=
        sub_pos.mpr (hlt _ (getD_mem_of_lt beats hs))
      rw [if_neg (not_le.mpr hwpos),
        if_neg (not_le.mpr (lt_of_lt_of_le haud hclip))]
      have hmin : min (durs.getD (ci % durs.length) 0) (audio - beats.getD s 0)
          = audio - beats.getD s 0 := min_eq_right (by linarith)
      simp only [List.map_cons, List.map_nil, tilesFrom]
      refine ⟨by simp, ?_⟩
      rw [hmin]
      ring
    | succ m =>
      simp only [beatLoop, beats_per_clip]
      have hfull : s + 4 < beats.length := by omega
      rw [if_pos hfull]
      have hwpos : 0 < beats.getD (s + 4) 0 - beats.getD s 0 :=
        sub_pos.mpr (getD_lt_getD beats hsorted (by omega) hfull)
      rw [if_neg (not_le.mpr hwpos),
        if_neg (not_le.mpr (lt_of_lt_of_le haud hclip))]
      have hend : beats.getD (s + 4) 0 < audio := hlt _ (getD_mem_of_lt beats hfull)
      have hmin : min (durs.getD (ci % durs.length) 0)
          (beats.getD (s + 4) 0 - beats.getD s 0)
          = beats.getD (s + 4) 0 - beats.getD s 0 := min_eq_right (by linarith)
      have harith : beats.getD s 0 + (beats.getD (s + 4) 0 - beats.getD s 0)
          = beats.getD (s + 4) 0 := by ring
      simp only [List.map_cons, tilesFrom]
      refine ⟨by simp, ?_⟩
      rw [hmin, harith]
      exact ih (s + 4) (ord + 1) (ci + 1) (Nat.succ_pos m) (by omega) (by omega)

/-- C1, counterexample: one beat at time 1, one clip of duration 5, audio
duration 2.  The plan is the single segment `[1, 2)`: it starts at the first
beat, not at 0, leaving the gap `[0, 1)` (a one-second gap, far beyond any
floating-point tolerance), so the placement intervals do not tile
`[0, audio_duration)`. -/
theorem beat_plan_not_always_tiling :
    ¬ tilesFrom (beatPlan [1] [5] 2) 0 2 := by
  norm_num [beatPlan, beatPlanW, beatLoop, windowStarts, beats_per_clip, tilesFrom]

/-- C1, amended: the beat-synced plan tiles `[0, audio_duration)` exactly
(no gaps, no overlaps, starting at 0 and ending at `audio_duration`)
provided the grid starts at 0, is strictly increasing with every beat below
the audio duration, and every clip is long enough for its window (here:
every clip duration at least `audio_duration`).  Without those provisos the
plan can start after 0 or leave a gap inside a window (see the
counterexample), because a window keeps only `min(clip_duration,
segment_duration)` seconds of video. -/
theorem beat_plan_tiles_of_aligned (beats durs : List ℚ) (audio : ℚ)
    (hne : beats ≠ []) (h0 : beats.getD 0 0 = 0)
    (hsorted : List.Sorted (· < ·) beats) (hlt : ∀ b ∈ beats, b < audio)
    (hdur : ∀ d ∈ durs, audio ≤ d) (hdne : durs ≠ []) :
    tilesFrom (beatPlan beats durs audio) 0 audio := by
  have hn : 0 < beats.length := List.length_pos.mpr hne
  have h := beatLoop_tiles beats durs audio hsorted h0 hlt hdur hdne
    ((beats.length + 3) / 4) 0 0 0 (by omega) (by omega) (by omega)
  rw [beatPlan, beatPlanW, windowStarts_eq]
  rw [h0] at h
  exact h

/-- C1, witness: five beats 0,1,2,3,4, one clip of duration 10, audio
duration 5 — the plan is two windows `[0, 4)` and `[4, 5)` tiling `[0, 5)`. -/
theorem beat_plan_tiles_of_aligned_witness :
    tilesFrom (beatPlan [0, 1, 2, 3, 4] [10] 5) 0 5 :=
  beat_plan_tiles_of_aligned [0, 1, 2, 3, 4] [10] 5 (by simp) (by norm_num)
    (by norm_num [List.sorted_cons]) (by norm_num) (by norm_num) (by simp)

/-! ### C6: termination of the sequential-fill loop -/


lemma getD_nonneg_all (durs : List ℚ) (hnn : ∀ d ∈ durs, 0 ≤ d) (k : ℕ) :
    0 ≤ durs.getD k 0 := by
  by_cases h : k < durs.length
  · exact hnn _ (getD_mem_of_lt durs h)
  · rw [List.getD_eq_default _ _ (le_of_not_lt h)]

lemma seqStep_iterate_snd (durs : List ℚ) (audio : ℚ) :
    ∀ (n : ℕ) (st : ℚ × ℕ), ((seqStep durs audio)^[n] st).2 = st.2 + n := by
  intro n
  induction n with
  | zero => intro st; simp
  | succ m ihm =>
    intro st
    rw [Function.iterate_succ_apply, ihm]
    simp [seqStep]
    omega

lemma seqStep_bounds (durs : List ℚ) (audio : ℚ) (hnn : ∀ d ∈ durs, 0 ≤ d)
    (st : ℚ × ℕ) (h : st.1 ≤ audio) :
    st.1 ≤ (seqStep durs audio st).1 ∧ (seqStep durs audio st).1 ≤ audio := by
  have hd : 0 ≤ durs.getD (st.2 % durs.length) 0 := getD_nonneg_all durs hnn _
  constructor
  · have : 0 ≤ min (durs.getD (st.2 % durs.length) 0) (audio - st.1) :=
      le_min hd (by linarith)
    simp only [seqStep]
    linarith
  · have : min (durs.getD (st.2 % durs.length) 0) (audio - st.1) ≤ audio - st.1 :=
      min_le_right _ _
    simp only [seqStep]
    linarith

lemma seqStep_iterate_bounds (durs : List ℚ) (audio : ℚ)
    (hnn : ∀ d ∈ durs, 0 ≤ d) :
    ∀ (n : ℕ) (st : ℚ × ℕ), st.1 ≤ audio →
      st.1 ≤ ((seqStep durs audio)^[n] st).1 ∧
      ((seqStep durs audio)^[n] st).1 ≤ audio := by
  intro n
  induction n with
  | zero => intro st h; simp [h]
  | succ m ihm =>
    intro st h
    rw [Function.iterate_succ_apply]
    have h1 := seqStep_bounds durs audio hnn st h
    have h2 := ihm (seqStep durs audio st) h1.2
    exact ⟨le_trans h1.1 h2.1, h2.2⟩

lemma seqStep_progress (durs : List ℚ) (audio : ℚ) (j : ℕ)
    (st : ℚ × ℕ) (hmod : st.2 % durs.length = j) :
    (seqStep durs audio st).1 = min (st.1 + durs.getD j 0) audio := by
  simp only [seqStep, hmod]
  rw [← min_add_add_left]
  congr 1
  ring

lemma seqStep_cycle (durs : List ℚ) (audio : ℚ) (haud : 0 < audio)
    (hnn : ∀ d ∈ durs, 0 ≤ d) (j : ℕ) (hj : j < durs.length)
    (hdj : 0 < durs.getD j 0) :
    ∀ k : ℕ, min (((k + 1 : ℕ) : ℚ) * durs.getD j 0) audio ≤
      ((seqStep durs audio)^[j + 1 + k * durs.length] (0, 0)).1 := by
  intro k
  induction k with
  | zero =>
    have hit : (seqStep durs audio)^[j + 1 + 0 * durs.length] (0, 0) =
        seqStep durs audio ((seqStep durs audio)^[j] (0, 0)) := by
      have : j + 1 + 0 * durs.length = j + 1 := by omega
      rw [this, Function.iterate_succ_apply']
    rw [hit]
    have hb := seqStep_iterate_bounds durs audio hnn j (0, 0) (by simpa using le_of_lt haud)
    have hsnd : ((seqStep durs audio)^[j] (0, 0)).2 = j := by
      simp [seqStep_iterate_snd]
    have hmod : ((seqStep durs audio)^[j] (0, 0)).2 % durs.length = j := by
      rw [hsnd, Nat.mod_eq_of_lt hj]
    rw [seqStep_progress durs audio j _ hmod]
    have h0 : (0 : ℚ) ≤ ((seqStep durs audio)^[j] (0, 0)).1 := by simpa using hb.1
    refine le_min ?_ (min_le_right _ _)
    have : ((0 + 1 : ℕ) : ℚ) * durs.getD j 0 = durs.getD j 0 := by norm_num
    rw [this]
    calc durs.getD j 0 ⊓ audio ≤ durs.getD j 0 := min_le_left _ _
    _ ≤ ((seqStep durs audio)^[j] (0, 0)).1 + durs.getD j 0 := by linarith
  | succ k ihk =>
    have harr : j + 1 + (k + 1) * durs.length =
        durs.length + (j + 1 + k * durs.length) := by ring
    rw [harr, Function.iterate_add_apply]
    have hb0 := seqStep_iterate_bounds durs audio hnn (j + 1 + k * durs.length) (0, 0)
      (by simpa using le_of_lt haud)
    have hsnd0 : ((seqStep durs audio)^[j + 1 + k * durs.length] (0, 0)).2 =
        j + 1 + k * durs.length := by
      simp [seqStep_iterate_snd]
    generalize hg : (seqStep durs audio)^[j + 1 + k * durs.length] (0, 0) = st0
      at ihk hb0 hsnd0 ⊢
    have hLsplit : durs.length = (durs.length - 1) + 1 := by omega
    rw [hLsplit, Function.iterate_succ_apply']
    have hb1 := seqStep_iterate_bounds durs audio hnn (durs.length - 1) st0 hb0.2
    have hsnd : ((seqStep durs audio)^[durs.length - 1] st0).2 =
        j + (k + 1) * durs.length := by
      rw [seqStep_iterate_snd, hsnd0]
      omega
    have hmod : ((seqStep durs audio)^[durs.length - 1] st0).2 % durs.length
        = j := by
      rw [hsnd, Nat.add_mul_mod_self_right, Nat.mod_eq_of_lt hj]
    rw [seqStep_progress durs audio j _ hmod]
    have hchain : min (((k + 1 : ℕ) : ℚ) * durs.getD j 0) audio ≤
        ((seqStep durs audio)^[durs.length - 1] st0).1 :=
      le_trans ihk hb1.1
    have hkey : min (((k + 1 + 1 : ℕ) : ℚ) * durs.getD j 0) audio ≤
        min (((k + 1 : ℕ) : ℚ) * durs.getD j 0) audio + durs.getD j 0 := by
      rcases le_total (((k + 1 : ℕ) : ℚ) * durs.getD j 0) audio with h | h
      · rw [min_eq_left h]
        refine le_trans (min_le_left _ _) (le_of_eq ?_)
        push_cast
        ring
      · rw [min_eq_right h]
        exact le_trans (min_le_right _ _) (by linarith)
    refine le_min ?_ (min_le_right _ _)
    linarith [hchain, hkey]

lemma seqAux_some_of_iterate (durs : List ℚ) (audio : ℚ) :
    ∀ (n : ℕ) (t : ℚ) (ci : ℕ),
      audio ≤ ((seqStep durs audio)^[n] (t, ci)).1 →
      ∃ fuel, (seqAux durs audio fuel t ci).isSome := by
  intro n
  induction n with
  | zero =>
    intro t ci h
    refine ⟨1, ?_⟩
    simp only [seqAux]
    rw [if_neg (not_lt.mpr (by simpa using h))]
    rfl
  | succ m ihm =>
    intro t ci h
    by_cases hlt : t < audio
    · rw [Function.iterate_succ_apply] at h
      obtain ⟨fuel, hf⟩ := ihm (seqStep durs audio (t, ci)).1
        (seqStep durs audio (t, ci)).2 h
      refine ⟨fuel + 1, ?_⟩
      simp only [seqAux]
      rw [if_pos hlt]
      rw [Option.isSome_map']
      exact hf
    · refine ⟨1, ?_⟩
      simp only [seqAux]
      rw [if_neg hlt]
      rfl

lemma seqAux_stuck_on_zero : ∀ (fuel ci : ℕ), seqAux [0] 1 fuel 0 ci = none := by
  intro fuel
  induction fuel with
  | zero => intro ci; rfl
  | succ m ihm =>
    intro ci
    simp only [seqAux]
    rw [if_pos (by norm_num : (0 : ℚ) < 1)]
    norm_num [Nat.mod_one, ihm]

/-- C6, counterexample: with a single clip whose probed duration is 0 (a
probe failure appends exactly 0) and audio duration 1, every iteration uses
`min(0, 1 - 0) = 0` and `current_time` never advances: the sequential-fill
loop runs forever — no fuel bound makes it produce a plan. -/
theorem seq_fill_not_always_terminating :
    ¬ ∃ fuel plan, seqPlan fuel [0] 1 = some plan := by
  rintro ⟨fuel, plan, hp⟩
  rw [seqPlan, seqAux_stuck_on_zero fuel 0] at hp
  exact Option.noConfusion hp

/-- C6, amended: the sequential-fill loop terminates provided no clip has a
negative probed duration and at least one clip has a positive one (the loop
picks `clips[clip_index mod len(clips)]`, uses
`min(clip_duration, audio_duration - current_time)` and advances
`current_time` and `clip_index`, exactly as claimed); when every probed
duration is ≤ 0 — e.g. when every probe fails — `current_time` never
advances and the loop never terminates (see the counterexample). -/
theorem seq_fill_terminates (durs : List ℚ) (audio : ℚ) (haud : 0 < audio)
    (hnn : ∀ d ∈ durs, 0 ≤ d) (j : ℕ) (hj : j < durs.length)
    (hdj : 0 < durs.getD j 0) :
    ∃ fuel plan, seqPlan fuel durs audio = some plan := by
  have hk : audio ≤ ((⌈audio / durs.getD j 0⌉₊ : ℕ) : ℚ) * durs.getD j 0 := by
    have h1 : audio / durs.getD j 0 ≤ ((⌈audio / durs.getD j 0⌉₊ : ℕ) : ℚ) :=
      Nat.le_ceil _
    have h2 : (audio / durs.getD j 0) * durs.getD j 0 = audio :=
      div_mul_cancel₀ audio (ne_of_gt hdj)
    calc audio = (audio / durs.getD j 0) * durs.getD j 0 := h2.symm
    _ ≤ _ := mul_le_mul_of_nonneg_right h1 (le_of_lt hdj)
  have hcy := seqStep_cycle durs audio haud hnn j hj hdj ⌈audio / durs.getD j 0⌉₊
  have hmin : min (((⌈audio / durs.getD j 0⌉₊ + 1 : ℕ) : ℚ) * durs.getD j 0) audio
      = audio := by
    refine min_eq_right ?_
    push_cast
    nlinarith [hk, hdj]
  rw [hmin] at hcy
  obtain ⟨fuel, hf⟩ := seqAux_some_of_iterate durs audio _ 0 0 hcy
  obtain ⟨plan, hp⟩ := Option.isSome_iff_exists.mp hf
  exact ⟨fuel, plan, hp⟩

/-- C6, witness: the amended termination theorem at the Scenario-A inputs. -/
theorem seq_fill_terminates_witness :
    ∃ fuel plan, seqPlan fuel [10, 20, 5] 65 = some plan :=
  seq_fill_terminates [10, 20, 5] 65 (by norm_num) (by norm_num) 0 (by norm_num)
    (by norm_num)

/-! ### C8: result discipline of the assembly operation -/

lemma assembleStage_false_of (env : MVEnv) (plan : List ClipSegment) :
    (env.concat_ok = false → assembleStage env plan = false) ∧
    (env.mux_ok = false → assembleStage env plan = false) ∧
    (env.output_ok = false → assembleStage env plan = false) := by
  refine ⟨fun h => ?_, fun h => ?_, fun h => ?_⟩ <;> simp [assembleStage, h]

lemma assembleStage_true (env : MVEnv) (plan : List ClipSegment)
    (h : assembleStage env plan = true) :
    env.output_ok = true ∧ env.concat_ok = true ∧ env.mux_ok = true := by
  refine ⟨?_, ?_, ?_⟩
  · cases ho : env.output_ok with
    | true => rfl
    | false =>
      rw [(assembleStage_false_of env plan).2.2 ho] at h
      exact Bool.noConfusion h
  · cases ho : env.concat_ok with
    | true => rfl
    | false =>
      rw [(assembleStage_false_of env plan).1 ho] at h
      exact Bool.noConfusion h
  · cases ho : env.mux_ok with
    | true => rfl
    | false =>
      rw [(assembleStage_false_of env plan).2.1 ho] at h
      exact Bool.noConfusion h

lemma create_mv_true_stage (fuel : ℕ) (env : MVEnv)
    (h : create_mv fuel env = some true) :
    ∃ plan, assembleStage env plan = true := by
  by_cases hae : env.audio_exists = false
  · simp [create_mv, hae] at h
  by_cases had : env.audio_probe.getD 0 ≤ 0
  · simp [create_mv, hae, had] at h
  rcases hbeat : (if env.sync_to_beat = true then env.beat_data else none) with _ | bts
  · by_cases hlen : env.clip_probes = []
    · simp [create_mv, hae, had, hbeat, hlen] at h
    · simp only [create_mv, if_neg hae, if_neg had, hbeat] at h
      rw [if_neg (by simp [hlen])] at h
      rw [Option.map_eq_some'] at h
      obtain ⟨plan, _, hb⟩ := h
      exact ⟨plan, hb⟩
  · simp only [create_mv, if_neg hae, if_neg had, hbeat] at h
    exact ⟨_, Option.some.inj h⟩


/-- C8, counterexample: the assembly operation does not return a boolean on
every invocation — in `divergingEnv` (one clip, probe failure, sequential
mode) the `while current_time < audio_duration` loop never terminates, so no
fuel bound makes the call return. -/
theorem create_mv_no_return_on_zero_durations :
    ¬ ∃ fuel b, create_mv fuel divergingEnv = some b := by
  rintro ⟨fuel, b, hb⟩
  have hnone : create_mv fuel divergingEnv = none := by
    simp [create_mv, divergingEnv, seqPlan, seqAux_stuck_on_zero fuel 0]
  rw [hnone] at hb
  exact Option.noConfusion hb

/-- C8, amended: *whenever the assembly operation returns* (its sequential
planning loop can diverge when every probed clip duration is ≤ 0 — see the
counterexample), it returns a boolean with every external-tool failure
caught and converted to `false`; it returns `true` only if, at its end, the
final output file exists with non-zero size — and only if the concat and mux
invocations succeeded. -/
theorem create_mv_true_requires_output (env : MVEnv) (fuel : ℕ)
    (h : create_mv fuel env = some true) :
    env.output_ok = true ∧ env.concat_ok = true ∧ env.mux_ok = true := by
  obtain ⟨plan, hp⟩ := create_mv_true_stage fuel env h
  exact assembleStage_true env plan hp


/-- C8, witness: in `successEnv` the call returns `some true`, and the
theorem yields that the output file exists and concat/mux succeeded. -/
theorem create_mv_true_requires_output_witness :
    successEnv.output_ok = true ∧ successEnv.concat_ok = true ∧
      successEnv.mux_ok = true :=
  create_mv_true_requires_output successEnv 3
    (by norm_num [create_mv, successEnv, seqPlan, seqAux, assembleStage]; decide)
